import Mathlib

set_option maxHeartbeats 1000000

/-!
Shallow embedding of `src/environments.py` (the Finch evolutionary-run
orchestrator): the base `Environment` generation loop and the three
composite strategies `Adversarial`, `ChronologicalEnvironment` and
`AdaptiveEnvironment`.  Pure state passing replaces in-place mutation,
`Except` replaces Python exceptions, and printing / tabulation /
plotting — pure presentation side effects that read but never write the
managed state — are omitted.
-/

/-- Modelled from the spec: the `Individual` class
(`Finch.genetics.population`) is not under `src/`; per the spec's
Candidate contract it carries a totally ordered fitness value (embedded
as `Int`) and supports deep cloning via `copy`. -/
structure Individual where
  fitness : Int
deriving DecidableEq, Repr

/-- `Individual.copy`: a deep, independent copy; on immutable values the
identity. -/
def Individual.copy (ind : Individual) : Individual := ind

/-- Python exceptions raised (or propagated) by `environments.py`.
`noIndividualsAtEndOfRun` is the repository's own
`NoIndividualsAtEndOfRun` exception class. -/
inductive PyErr where
  | typeError
  | valueError
  | indexError
  | zeroDivisionError
  | noIndividualsAtEndOfRun
deriving DecidableEq, Repr

/-- The fitness function handed to `compile` is an opaque value: no code
in `environments.py` ever invokes it (stages consume it), so it is
embedded as a token that is only stored and passed along. -/
structure FitnessFunction where
  token : Nat
deriving DecidableEq, Repr

/-- The non-function-valued attributes of an `Environment` object. -/
structure EnvState where
  name : String
  generations : Nat
  verbose_every : Nat
  fitness_function : Option FitnessFunction
  individuals : List Individual
  iteration : Nat
  history : List Int
  compiled : Bool
  deactivated : Bool
  best_ever : Option Individual
  /-- Modelled from the spec: this attribute is read by
  `AdaptiveEnvironment.smart_evolve` (`i.fitness`, `x.fitness`) but
  maintained by the `layer.Layer` base class, which is not under
  `src/`; per spec section 4.5 it holds the member's most recent
  representative fitness.  No operation in this file writes it. -/
  fitness : Int
deriving DecidableEq, Repr

/-- Modelled from the spec: the `layer.Layer` class (`Finch3.layers`)
is not under `src/`; per the spec's Stage contract its `run` method
receives the live population and the owning environment and mutates the
population in place without replacing the reference, so a stage is
embedded as a function returning the population it leaves behind.  The
function-valued fields of the environment are not visible to a stage,
hence the `EnvState` argument. -/
abbrev Layer := List Individual → EnvState → List Individual

/-- A post-generation callback.  The source calls it with two arguments
in `Environment.execute` (`self.callback(self.individuals, self)`) and
with a single argument in `Adversarial.evolve`
(`self.callback(individuals)`); an opaque Python callable may support
both shapes, so both call shapes are fields.  Its observable effect is
the in-place mutation of the population, modelled as the returned
list. -/
structure Callback where
  run : List Individual → EnvState → List Individual
  run1 : List Individual → List Individual

/-- An `Environment` object: its plain state plus its function-valued
attributes (the stage list and the optional callback). -/
structure Environment where
  data : EnvState
  layers : List Layer
  callback : Option Callback

/-- A raised Python exception together with the environment object as it
stands when the exception propagates: Python mutations performed before
the raise survive it, so the error carries the mutated state. -/
structure Exn where
  err : PyErr
  env : Environment

/-- `Environment.__init__`.  The body unconditionally iterates `layers`
(`for lay in layers: lay.set_environment(self)`), so every call with the
default `layers=None` raises `TypeError` before the remaining attributes
(`individuals`, `iteration`, `history`, `compiled`, `deactivated`,
`best_ever`) are ever assigned.  The `set_environment` back-pointer each
layer stores is state of the external `Layer` class and carries nothing
this module reads. -/
def Environment.init (layers : Option (List Layer)) (name : String)
    (verbose_every : Nat) : Except PyErr Environment :=
  match layers with
  | none => .error .typeError
  | some ls =>
    .ok { data := { name := name, generations := 0,
                    verbose_every := verbose_every, fitness_function := none,
                    individuals := [], iteration := 0, history := [],
                    compiled := false, deactivated := false,
                    best_ever := none, fitness := 0 },
          layers := ls, callback := none }

/-- `Environment.compile`: stores the fitness function, the starting
population (empty when none is supplied), the callback and the reporting
interval, and marks the environment compiled. -/
def Environment.compile (env : Environment) (fitness_function : FitnessFunction)
    (individuals : Option (List Individual)) (callback : Option Callback)
    (verbose_every : Nat) : Environment :=
  { env with
    data := { env.data with
              fitness_function := some fitness_function,
              individuals := individuals.getD [],
              compiled := true,
              verbose_every := verbose_every },
    callback := callback }

/-- `Environment.deactivate`: prevents further evolution. -/
def Environment.deactivate (env : Environment) : Environment :=
  { env with data := { env.data with deactivated := true } }

/-- `Environment.get_fitness_metric`: the best-ever fitness, or zero when
none has been recorded yet. -/
def Environment.get_fitness_metric (env : Environment) : Int :=
  match env.data.best_ever with
  | some b => b.fitness
  | none => 0

/-- The stage loop of `Environment.execute`:
`for a_layer in self.layers: a_layer.run(self.individuals, self)` —
each stage sees the population as left by the previous one. -/
def runLayers : List Layer → EnvState → EnvState
  | [], d => d
  | l :: ls, d => runLayers ls { d with individuals := l d.individuals d }

/-- Stage pipeline plus the optional post-generation callback
(`if self.callback: self.callback(self.individuals, self)`), as run at
the start of `Environment.execute`. -/
def pipelineRun (layers : List Layer) (callback : Option Callback)
    (d : EnvState) : EnvState :=
  match callback with
  | some cb =>
    { runLayers layers d with
      individuals := cb.run (runLayers layers d).individuals (runLayers layers d) }
  | none => runLayers layers d

/-- The best-ever update rule of `Environment.execute`: on the first
completed generation the representative candidate is cloned as best-ever;
afterwards it is replaced by a clone only when the new representative
fitness is strictly greater. -/
def bestEverUpdate (best : Option Individual) (rep : Individual) :
    Option Individual :=
  match best with
  | some b => if rep.fitness > b.fitness then some rep.copy else some b
  | none => some rep.copy

/-- `Environment.execute`, one generation: run every stage in order, run
the callback, raise `NoIndividualsAtEndOfRun` if the population is now
empty, read the last candidate's fitness, update best-ever, and append
the fitness to the history.  The Python method's `individuals` parameter
is ignored by its body (which reads `self.individuals`) and the progress
print is a pure side effect; both are omitted. -/
def Environment.execute (env : Environment) : Except Exn Environment :=
  if h : (pipelineRun env.layers env.callback env.data).individuals = [] then
    .error { err := .noIndividualsAtEndOfRun,
             env := { env with data := pipelineRun env.layers env.callback env.data } }
  else
    .ok { env with data :=
      { pipelineRun env.layers env.callback env.data with
        best_ever := bestEverUpdate
          (pipelineRun env.layers env.callback env.data).best_ever
          ((pipelineRun env.layers env.callback env.data).individuals.getLast h),
        history := (pipelineRun env.layers env.callback env.data).history ++
          [((pipelineRun env.layers env.callback env.data).individuals.getLast h).fitness] } }

/-- What `Environment.evolve` returns: a deactivated environment returns
the bare population, an active one returns the (population, history)
pair. -/
inductive EvolveResult where
  | pop (individuals : List Individual)
  | popHist (individuals : List Individual) (history : List Int)
deriving Repr

/-- The generation loop of `Environment.evolve`:
`for i in range(self.generations): self.iteration = i; self.execute(...)`. -/
def Environment.runSteps : Nat → Nat → Environment → Except Exn Environment
  | 0, _, env => .ok env
  | Nat.succ k, i, env =>
    match Environment.execute { env with data := { env.data with iteration := i } } with
    | .error e => .error e
    | .ok env2 => Environment.runSteps k (i + 1) env2

/-- `Environment.evolve`: a deactivated environment short-circuits and
returns only the existing population; otherwise the generation target is
stored and exactly `generations` single-generation steps run, after which
the population and the full history are returned. -/
def Environment.evolve (env : Environment) (generations : Nat) :
    Except Exn (EvolveResult × Environment) :=
  if env.data.deactivated then
    .ok (.pop env.data.individuals, env)
  else
    match Environment.runSteps generations 0
        { env with data := { env.data with generations := generations } } with
    | .error e => .error e
    | .ok env2 => .ok (.popHist env2.data.individuals env2.data.history, env2)

/-! ### Basic lemmas about the single-environment loop -/

lemma runLayers_shape (L : List Layer) :
    ∀ d : EnvState, ∃ pop, runLayers L d = { d with individuals := pop } := by
  induction L with
  | nil => intro d; exact ⟨d.individuals, rfl⟩
  | cons l ls ih =>
    intro d
    obtain ⟨pop, hp⟩ := ih { d with individuals := l d.individuals d }
    exact ⟨pop, by rw [runLayers, hp]⟩

lemma pipelineRun_shape (L : List Layer) (C : Option Callback) (d : EnvState) :
    ∃ pop, pipelineRun L C d = { d with individuals := pop } := by
  obtain ⟨pop, hp⟩ := runLayers_shape L d
  cases C with
  | none => exact ⟨pop, hp⟩
  | some cb =>
    refine ⟨cb.run (runLayers L d).individuals (runLayers L d), ?_⟩
    rw [pipelineRun, hp]

lemma pipelineRun_history (L : List Layer) (C : Option Callback) (d : EnvState) :
    (pipelineRun L C d).history = d.history := by
  obtain ⟨pop, hp⟩ := pipelineRun_shape L C d; rw [hp]

lemma pipelineRun_best_ever (L : List Layer) (C : Option Callback) (d : EnvState) :
    (pipelineRun L C d).best_ever = d.best_ever := by
  obtain ⟨pop, hp⟩ := pipelineRun_shape L C d; rw [hp]

lemma pipelineRun_name (L : List Layer) (C : Option Callback) (d : EnvState) :
    (pipelineRun L C d).name = d.name := by
  obtain ⟨pop, hp⟩ := pipelineRun_shape L C d; rw [hp]

lemma pipelineRun_iteration (L : List Layer) (C : Option Callback) (d : EnvState) :
    (pipelineRun L C d).iteration = d.iteration := by
  obtain ⟨pop, hp⟩ := pipelineRun_shape L C d; rw [hp]

lemma pipelineRun_deactivated (L : List Layer) (C : Option Callback) (d : EnvState) :
    (pipelineRun L C d).deactivated = d.deactivated := by
  obtain ⟨pop, hp⟩ := pipelineRun_shape L C d; rw [hp]

lemma pipelineRun_generations (L : List Layer) (C : Option Callback) (d : EnvState) :
    (pipelineRun L C d).generations = d.generations := by
  obtain ⟨pop, hp⟩ := pipelineRun_shape L C d; rw [hp]

/-- Everything `Environment.execute` guarantees on success. -/
lemma execute_ok_parts {e e' : Environment} (h : e.execute = .ok e') :
    ∃ rep : Individual,
      e'.data.individuals.getLast? = some rep ∧
      e'.data.individuals = (pipelineRun e.layers e.callback e.data).individuals ∧
      e'.data.history = e.data.history ++ [rep.fitness] ∧
      e'.data.best_ever = bestEverUpdate e.data.best_ever rep ∧
      e'.layers = e.layers ∧ e'.callback = e.callback ∧
      e'.data.name = e.data.name ∧
      e'.data.iteration = e.data.iteration ∧
      e'.data.deactivated = e.data.deactivated ∧
      e'.data.generations = e.data.generations := by
  unfold Environment.execute at h
  split at h
  · exact absurd h (by simp)
  · rename_i hne
    refine ⟨(pipelineRun e.layers e.callback e.data).individuals.getLast hne, ?_⟩
    cases h
    refine ⟨?_, rfl, ?_, ?_, rfl, rfl, ?_, ?_, ?_, ?_⟩
    · exact List.getLast?_eq_getLast _ hne
    · simp [pipelineRun_history]
    · simp [pipelineRun_best_ever]
    · simp [pipelineRun_name]
    · simp [pipelineRun_iteration]
    · simp [pipelineRun_deactivated]
    · simp [pipelineRun_generations]

/-- On success, one generation step appends exactly one history entry and
preserves the configuration fields. -/
lemma runSteps_ok_parts :
    ∀ (k i : Nat) (e e' : Environment), Environment.runSteps k i e = .ok e' →
      e'.data.history.length = e.data.history.length + k ∧
      e'.layers = e.layers ∧ e'.callback = e.callback ∧
      e'.data.name = e.data.name ∧ e'.data.deactivated = e.data.deactivated := by
  intro k
  induction k with
  | zero =>
    intro i e e' h
    cases h
    exact ⟨rfl, rfl, rfl, rfl, rfl⟩
  | succ n ih =>
    intro i e e' h
    rw [Environment.runSteps] at h
    split at h
    · exact absurd h (by simp)
    · rename_i e2 heq
      obtain ⟨hlen, hL, hC, hname, hdeact⟩ := ih (i + 1) e2 e' h
      obtain ⟨rep, _, _, hhist, _, hL2, hC2, hname2, _, hdeact2, _⟩ := execute_ok_parts heq
      refine ⟨?_, by rw [hL, hL2], by rw [hC, hC2], by rw [hname, hname2], ?_⟩
      · rw [hlen, hhist]
        simp
        omega
      · rw [hdeact, hdeact2]

/-- On success, a non-deactivated `evolve(N)` returns the population and
history of the stepped state and grows the history by exactly `N`. -/
lemma evolve_ok_parts {e e' : Environment} {r : EvolveResult} {N : Nat}
    (hdeact : e.data.deactivated = false) (h : e.evolve N = .ok (r, e')) :
    r = .popHist e'.data.individuals e'.data.history ∧
    e'.data.history.length = e.data.history.length + N ∧
    e'.layers = e.layers ∧ e'.callback = e.callback ∧
    e'.data.name = e.data.name ∧ e'.data.deactivated = false := by
  unfold Environment.evolve at h
  rw [hdeact] at h
  simp only [Bool.false_eq_true, if_false] at h
  split at h
  · exact absurd h (by simp)
  · rename_i e2 heq
    simp only [Except.ok.injEq, Prod.mk.injEq] at h
    obtain ⟨hr, he⟩ := h
    subst he
    obtain ⟨hlen, hL, hC, hname, hdeact2⟩ := runSteps_ok_parts N 0 _ _ heq
    exact ⟨hr.symm, hlen, hL, hC, hname, by rw [hdeact2]; exact hdeact⟩

/-- When the stage pipeline can never empty the population, every
generation step succeeds. -/
lemma runSteps_ok_of_pipeline_ne (L : List Layer) (C : Option Callback)
    (hne : ∀ d : EnvState, (pipelineRun L C d).individuals ≠ []) :
    ∀ (k i : Nat) (e : Environment), e.layers = L → e.callback = C →
      ∃ e', Environment.runSteps k i e = .ok e' := by
  intro k
  induction k with
  | zero => intro i e _ _; exact ⟨e, rfl⟩
  | succ n ih =>
    intro i e hL hC
    have hL1 : ({ e with data := { e.data with iteration := i } } : Environment).layers = L := hL
    have hC1 : ({ e with data := { e.data with iteration := i } } : Environment).callback = C := hC
    cases heq : Environment.execute { e with data := { e.data with iteration := i } } with
    | error ex =>
      exfalso
      unfold Environment.execute at heq
      rw [dif_neg] at heq
      · exact absurd heq (by simp)
      · rw [hL1, hC1]; exact hne _
    | ok e2 =>
      obtain ⟨_, _, _, _, _, hL2, hC2, _, _, _, _⟩ := execute_ok_parts heq
      obtain ⟨e3, h3⟩ := ih (i + 1) e2 (by rw [hL2, hL1]) (by rw [hC2, hC1])
      refine ⟨e3, ?_⟩
      rw [Environment.runSteps, heq]
      exact h3

/-! ### Claim C1 -/

/-- Claim C1: for every Environment that is not deactivated and whose
Stages (with callback) never leave the population empty, `evolve(N)`
performs exactly `N` sequential single-generation steps, and on return
the fitness history has length `N` plus the number of entries present
before the call. -/
theorem evolve_completes_all_generations (env : Environment) (N : Nat)
    (hact : env.data.deactivated = false)
    (hne : ∀ d : EnvState, (pipelineRun env.layers env.callback d).individuals ≠ []) :
    ∃ env', env.evolve N = .ok (.popHist env'.data.individuals env'.data.history, env') ∧
      env'.data.history.length = env.data.history.length + N := by
  obtain ⟨e', h'⟩ := runSteps_ok_of_pipeline_ne env.layers env.callback hne N 0
    { env with data := { env.data with generations := N } } rfl rfl
  have hev : env.evolve N = .ok (.popHist e'.data.individuals e'.data.history, e') := by
    unfold Environment.evolve
    rw [hact]
    simp only [Bool.false_eq_true, if_false]
    rw [h']
  obtain ⟨hlen, _, _, _, _⟩ := runSteps_ok_parts N 0 _ e' h'
  exact ⟨e', hev, hlen⟩

/-! ### Claim C8 -/

/-- Claim C8: `evolve(N)` on a deactivated Environment returns the
existing population unchanged (a bare population, not the
population/history pair) and leaves the whole state — fitness history,
iteration index and population contents included — exactly as it was. -/
theorem evolve_deactivated_noop (env : Environment) (N : Nat)
    (h : env.data.deactivated = true) :
    env.evolve N = .ok (.pop env.data.individuals, env) := by
  unfold Environment.evolve
  rw [h]
  simp

/-! ### Witness fixtures -/

/-- A stage that appends one fresh candidate whose fitness is the current
population size; it never empties the population and the representative
fitness strictly increases each generation. -/
def growLayer : Layer := fun pop _ => pop ++ [⟨(pop.length : Int)⟩]

/-- A stage that discards the whole population. -/
def killLayer : Layer := fun _ _ => []

def wEnvState : EnvState :=
  { name := "w", generations := 0, verbose_every := 1,
    fitness_function := none, individuals := [⟨0⟩], iteration := 0,
    history := [], compiled := true, deactivated := false,
    best_ever := none, fitness := 1 }

def wEnv : Environment := { data := wEnvState, layers := [growLayer], callback := none }

def wDeadEnv : Environment :=
  { data := { wEnvState with deactivated := true }, layers := [growLayer], callback := none }

/-- Witness for C1 at a concrete environment and `N = 3`. -/
theorem evolve_completes_all_generations_witness :
    ∃ env', wEnv.evolve 3 = .ok (.popHist env'.data.individuals env'.data.history, env') ∧
      env'.data.history.length = wEnv.data.history.length + 3 :=
  evolve_completes_all_generations wEnv 3 rfl
    (by intro d; simp [pipelineRun, runLayers, wEnv, growLayer])

/-- Witness for C8 at a concrete deactivated environment and `N = 5`. -/
theorem evolve_deactivated_noop_witness :
    wDeadEnv.evolve 5 = .ok (.pop wDeadEnv.data.individuals, wDeadEnv) :=
  evolve_deactivated_noop wDeadEnv 5 rfl

/-! ### Claim C2 -/

/-- Maximum of a fitness history (`none` on an empty history). -/
def histMax : List Int → Option Int
  | [] => none
  | f :: rest =>
    match histMax rest with
    | none => some f
    | some m => some (max f m)

lemma histMax_append_none {l : List Int} (h : histMax l = none) (a : Int) :
    histMax (l ++ [a]) = some a := by
  induction l with
  | nil => rfl
  | cons f rest ih =>
    rw [histMax] at h
    split at h
    · exact absurd h (by simp)
    · exact absurd h (by simp)

lemma histMax_nil_of_nil {l : List Int} (h : histMax l = none) : l = [] := by
  cases l with
  | nil => rfl
  | cons f rest =>
    rw [histMax] at h
    split at h <;> exact absurd h (by simp)

lemma histMax_append_some {l : List Int} {m : Int} (h : histMax l = some m) (a : Int) :
    histMax (l ++ [a]) = some (max m a) := by
  induction l generalizing m with
  | nil => exact absurd h (by simp [histMax])
  | cons f rest ih =>
    rw [histMax] at h
    cases hr : histMax rest with
    | none =>
      rw [hr] at h
      cases h
      have hnil : rest = [] := histMax_nil_of_nil hr
      subst hnil
      simp [histMax]
    | some m2 =>
      rw [hr] at h
      cases h
      rw [List.cons_append, histMax, ih hr]
      simp [max_assoc]

/-- The lifetime invariant of the best-ever snapshot: either nothing has
been recorded yet (no best-ever, empty history), or the best-ever exists
and its fitness is the maximum of the recorded history. -/
def BestEverInv (e : Environment) : Prop :=
  (e.data.best_ever = none ∧ e.data.history = []) ∨
  (∃ b, e.data.best_ever = some b ∧ histMax e.data.history = some b.fitness)

lemma execute_preserves_inv {e e' : Environment} (h : e.execute = .ok e')
    (hInv : BestEverInv e) : BestEverInv e' := by
  obtain ⟨rep, hlast, hind, hhist, hbest, _⟩ := execute_ok_parts h
  cases hInv with
  | inl hfresh =>
    obtain ⟨hb, hh⟩ := hfresh
    right
    refine ⟨rep, ?_, ?_⟩
    · rw [hbest, hb]; rfl
    · rw [hhist, hh]; rfl
  | inr hex =>
    obtain ⟨b, hb, hm⟩ := hex
    right
    rw [hbest, hb, bestEverUpdate]
    by_cases hlt : rep.fitness > b.fitness
    · refine ⟨rep.copy, by rw [if_pos hlt], ?_⟩
      rw [hhist, histMax_append_some hm]
      have : max b.fitness rep.fitness = rep.fitness := max_eq_right (le_of_lt hlt)
      rw [this]; rfl
    · refine ⟨b, by rw [if_neg hlt], ?_⟩
      rw [hhist, histMax_append_some hm]
      have : max b.fitness rep.fitness = b.fitness := max_eq_left (not_lt.mp hlt)
      rw [this]

lemma execute_best_mono {e e' : Environment} (h : e.execute = .ok e')
    {b : Individual} (hb : e.data.best_ever = some b) :
    ∃ b', e'.data.best_ever = some b' ∧ b.fitness ≤ b'.fitness := by
  obtain ⟨rep, _, _, _, hbest, _⟩ := execute_ok_parts h
  rw [hbest, hb, bestEverUpdate]
  by_cases hlt : rep.fitness > b.fitness
  · exact ⟨rep.copy, by rw [if_pos hlt], le_of_lt hlt⟩
  · exact ⟨b, by rw [if_neg hlt], le_refl _⟩

lemma runSteps_preserves_inv :
    ∀ (k i : Nat) (e e' : Environment), Environment.runSteps k i e = .ok e' →
      BestEverInv e → BestEverInv e' := by
  intro k
  induction k with
  | zero => intro i e e' h hInv; cases h; exact hInv
  | succ n ih =>
    intro i e e' h hInv
    rw [Environment.runSteps] at h
    split at h
    · exact absurd h (by simp)
    · rename_i e2 heq
      refine ih (i + 1) e2 e' h (execute_preserves_inv heq ?_)
      cases hInv with
      | inl hf => exact Or.inl hf
      | inr hx => exact Or.inr hx

lemma runSteps_best_mono :
    ∀ (k i : Nat) (e e' : Environment), Environment.runSteps k i e = .ok e' →
      ∀ b, e.data.best_ever = some b →
        ∃ b', e'.data.best_ever = some b' ∧ b.fitness ≤ b'.fitness := by
  intro k
  induction k with
  | zero => intro i e e' h b hb; cases h; exact ⟨b, hb, le_refl _⟩
  | succ n ih =>
    intro i e e' h b hb
    rw [Environment.runSteps] at h
    split at h
    · exact absurd h (by simp)
    · rename_i e2 heq
      obtain ⟨b2, hb2, hle2⟩ := execute_best_mono heq (b := b) hb
      obtain ⟨b', hb', hle'⟩ := ih (i + 1) e2 e' h b2 hb2
      exact ⟨b', hb', le_trans hle2 hle'⟩

/-- Case analysis of a successful `Environment.evolve` call. -/
lemma evolve_ok_cases {e e' : Environment} {r : EvolveResult} {N : Nat}
    (h : e.evolve N = .ok (r, e')) :
    (e.data.deactivated = true ∧ r = .pop e.data.individuals ∧ e' = e) ∨
    (e.data.deactivated = false ∧
     Environment.runSteps N 0 { e with data := { e.data with generations := N } } = .ok e' ∧
     r = .popHist e'.data.individuals e'.data.history) := by
  unfold Environment.evolve at h
  by_cases hd : e.data.deactivated = true
  · rw [if_pos hd] at h
    simp only [Except.ok.injEq, Prod.mk.injEq] at h
    exact Or.inl ⟨hd, h.1.symm, h.2.symm⟩
  · rw [if_neg hd] at h
    split at h
    · exact absurd h (by simp)
    · rename_i e2 heq
      simp only [Except.ok.injEq, Prod.mk.injEq] at h
      obtain ⟨hr, he⟩ := h
      subst he
      exact Or.inr ⟨Bool.not_eq_true _ ▸ hd, heq, hr.symm⟩

/-- Claim C2: across the lifetime of an Environment the best-ever
snapshot obeys: (a) the invariant "best-ever exists iff a generation has
completed, and its fitness equals the maximum of the recorded per-
generation representative fitness values" holds from construction and is
preserved by every `evolve` call; (b) best-ever fitness never decreases
across an `evolve` call; (c) per generation step, best-ever is first set
to a clone of the representative candidate, is replaced by a clone only
on a strictly greater representative fitness, and is left untouched on a
tie or a drop. -/
theorem best_ever_tracks_max (env env' : Environment) (r : EvolveResult) (N : Nat)
    (hInv : BestEverInv env) (hok : env.evolve N = .ok (r, env')) :
    BestEverInv env' ∧
    (∀ b b', env.data.best_ever = some b → env'.data.best_ever = some b' →
       b.fitness ≤ b'.fitness) ∧
    (∀ (L : List Layer) (nm : String) (v : Nat) (e0 : Environment),
       Environment.init (some L) nm v = .ok e0 → BestEverInv e0) ∧
    (∀ (f f' : Environment) (rep : Individual), f.execute = .ok f' →
       f'.data.individuals.getLast? = some rep →
       ((f.data.best_ever = none → f'.data.best_ever = some rep.copy) ∧
        (∀ b, f.data.best_ever = some b → b.fitness < rep.fitness →
           f'.data.best_ever = some rep.copy) ∧
        (∀ b, f.data.best_ever = some b → rep.fitness ≤ b.fitness →
           f'.data.best_ever = some b))) := by
  refine ⟨?_, ?_, ?_, ?_⟩
  · cases evolve_ok_cases hok with
    | inl hcase => rw [hcase.2.2]; exact hInv
    | inr hcase =>
      refine runSteps_preserves_inv N 0 _ env' hcase.2.1 ?_
      cases hInv with
      | inl hf => exact Or.inl hf
      | inr hx => exact Or.inr hx
  · intro b b' hb hb'
    cases evolve_ok_cases hok with
    | inl hcase =>
      rw [hcase.2.2] at hb'
      rw [hb] at hb'
      cases hb'
      exact le_refl _
    | inr hcase =>
      obtain ⟨b2, hb2, hle⟩ := runSteps_best_mono N 0 _ env' hcase.2.1 b hb
      rw [hb2] at hb'
      cases hb'
      exact hle
  · intro L nm v e0 h0
    rw [Environment.init] at h0
    cases h0
    exact Or.inl ⟨rfl, rfl⟩
  · intro f f' rep hexec hlast
    obtain ⟨rep2, hlast2, _, _, hbest, _⟩ := execute_ok_parts hexec
    rw [hlast2] at hlast
    cases hlast
    refine ⟨?_, ?_, ?_⟩
    · intro hb; rw [hbest, hb]; rfl
    · intro b hb hlt; rw [hbest, hb, bestEverUpdate, if_pos hlt]
    · intro b hb hle; rw [hbest, hb, bestEverUpdate, if_neg (not_lt.mpr hle)]

/-- Witness for C2: a fresh concrete environment evolved for two
generations. -/
theorem best_ever_tracks_max_witness :
    ∃ r env', wEnv.evolve 2 = .ok (r, env') ∧
      (BestEverInv env' ∧
       (∀ b b', wEnv.data.best_ever = some b → env'.data.best_ever = some b' →
          b.fitness ≤ b'.fitness) ∧
       (∀ (L : List Layer) (nm : String) (v : Nat) (e0 : Environment),
          Environment.init (some L) nm v = .ok e0 → BestEverInv e0) ∧
       (∀ (f f' : Environment) (rep : Individual), f.execute = .ok f' →
          f'.data.individuals.getLast? = some rep →
          ((f.data.best_ever = none → f'.data.best_ever = some rep.copy) ∧
           (∀ b, f.data.best_ever = some b → b.fitness < rep.fitness →
              f'.data.best_ever = some rep.copy) ∧
           (∀ b, f.data.best_ever = some b → rep.fitness ≤ b.fitness →
              f'.data.best_ever = some b)))) :=
  ⟨_, _, rfl, best_ever_tracks_max wEnv _ _ 2 (Or.inl ⟨rfl, rfl⟩) rfl⟩

/-! ### Claim C3 -/

/-- Claim C3: a generation step whose stage pipeline (with callback)
leaves the population empty raises `NoIndividualsAtEndOfRun`; the raise
carries the environment with no fitness appended to the history and no
best-ever update for the failed generation (only the population mutation
survives); the error terminates the `runSteps` loop at that step and
`evolve` propagates it to the caller. -/
theorem empty_population_step_fatal (env : Environment)
    (hempty : (pipelineRun env.layers env.callback env.data).individuals = []) :
    (∃ envErr : Environment,
       env.execute = .error { err := .noIndividualsAtEndOfRun, env := envErr } ∧
       envErr.data.history = env.data.history ∧
       envErr.data.best_ever = env.data.best_ever ∧
       envErr.data.individuals = []) ∧
    (∀ (k i : Nat) (e : Environment) (exn : Exn),
       Environment.execute { e with data := { e.data with iteration := i } } = .error exn →
       Environment.runSteps (k + 1) i e = .error exn) ∧
    (∀ (e : Environment) (N : Nat) (exn : Exn),
       e.data.deactivated = false →
       Environment.runSteps N 0 { e with data := { e.data with generations := N } } = .error exn →
       e.evolve N = .error exn) := by
  refine ⟨?_, ?_, ?_⟩
  · refine ⟨{ env with data := pipelineRun env.layers env.callback env.data }, ?_, ?_, ?_, hempty⟩
    · unfold Environment.execute
      rw [dif_pos hempty]
    · exact pipelineRun_history _ _ _
    · exact pipelineRun_best_ever _ _ _
  · intro k i e exn hx
    rw [Environment.runSteps, hx]
  · intro e N exn hd hx
    unfold Environment.evolve
    rw [hd]
    simp only [Bool.false_eq_true, if_false]
    rw [hx]

/-- An environment whose single stage empties the population. -/
def wKillEnv : Environment :=
  { data := wEnvState, layers := [killLayer], callback := none }

/-- Witness for C3 at a concrete environment whose stage discards every
candidate. -/
theorem empty_population_step_fatal_witness :
    (∃ envErr : Environment,
       wKillEnv.execute = .error { err := .noIndividualsAtEndOfRun, env := envErr } ∧
       envErr.data.history = wKillEnv.data.history ∧
       envErr.data.best_ever = wKillEnv.data.best_ever ∧
       envErr.data.individuals = []) ∧
    (∀ (k i : Nat) (e : Environment) (exn : Exn),
       Environment.execute { e with data := { e.data with iteration := i } } = .error exn →
       Environment.runSteps (k + 1) i e = .error exn) ∧
    (∀ (e : Environment) (N : Nat) (exn : Exn),
       e.data.deactivated = false →
       Environment.runSteps N 0 { e with data := { e.data with generations := N } } = .error exn →
       e.evolve N = .error exn) :=
  empty_population_step_fatal wKillEnv rfl

/-! ### Composite environments: structures and constructors -/

/-- `Adversarial`: runs several sub-environments independently and ranks
them.  `Adversarial.__init__` passes the sub-environment list to the base
constructor as `layers` (a list, so iterating it raises nothing); no
`Adversarial` method ever runs the sub-environments as stages, so the
embedding keeps them only in `environments`. -/
structure Adversarial where
  data : EnvState
  callback : Option Callback
  environments : List Environment

/-- `ChronologicalEnvironment`: runs (sub-environment, generation-count)
stage pairs in order, handing the population along and concatenating
histories. -/
structure ChronologicalEnvironment where
  data : EnvState
  callback : Option Callback
  environments_and_generations : List (Environment × Option Nat)
  combined_history : List Int
  best_environment : Option (String × Int)

/-- `AdaptiveEnvironment`: a pool of sub-environments with one active
member.  `self.current_environment` is an object reference into the pool;
the embedding stores the pool by value, so `current` is the index of the
active member (always a pool member in the source: it starts as
`environments[0]` and is only ever reassigned to a pool member). -/
structure AdaptiveEnvironment where
  data : EnvState
  callback : Option Callback
  environments : List Environment
  switch_every : Nat
  current : Nat
  current_generation : Nat
  go_for : Nat

/-- `ChronologicalEnvironment.__init__`: calls the base constructor with
`layers=None` (`super().__init__(None, name)`), which raises `TypeError`
unconditionally; the remaining field assignments are unreachable but are
kept for fidelity. -/
def ChronologicalEnvironment.init
    (environments_and_generations : List (Environment × Option Nat))
    (name : String) : Except PyErr ChronologicalEnvironment :=
  match Environment.init none name 1 with
  | .error e => .error e
  | .ok base =>
    .ok { data := { base.data with individuals := [] }, callback := base.callback,
          environments_and_generations := environments_and_generations,
          combined_history := [], best_environment := none }

/-- `AdaptiveEnvironment.__init__`: calls the base constructor with the
default `layers=None` (`super().__init__(name=name)`), which raises
`TypeError` unconditionally; the unreachable remainder would read
`environments[0]`. -/
def AdaptiveEnvironment.init (environments : List Environment)
    (switch_every : Nat) (go_for : Nat) (name : String) :
    Except PyErr AdaptiveEnvironment :=
  match Environment.init none name 1 with
  | .error e => .error e
  | .ok base =>
    match environments[0]? with
    | none => .error .indexError
    | some _ =>
      .ok { data := base.data, callback := base.callback,
            environments := environments, switch_every := switch_every,
            current := 0, current_generation := 0, go_for := go_for }

/-! ### Claim C9 -/

/-- Claim C9: constructing an `Environment` without a list of Stages
raises `TypeError` (the constructor unconditionally iterates `layers`),
and in particular the `ChronologicalEnvironment` and
`AdaptiveEnvironment` constructors — which pass no layers list to the
base constructor — always raise, so those composites can never be
instantiated as written. -/
theorem init_without_layers_raises :
    (∀ (name : String) (verbose_every : Nat),
       Environment.init none name verbose_every = .error .typeError) ∧
    (∀ (eag : List (Environment × Option Nat)) (name : String),
       ChronologicalEnvironment.init eag name = .error .typeError) ∧
    (∀ (envs : List Environment) (se gf : Nat) (name : String),
       AdaptiveEnvironment.init envs se gf name = .error .typeError) :=
  ⟨fun _ _ => rfl, fun _ _ => rfl, fun _ _ _ _ => rfl⟩

/-! ### Composite `compile` and Claim C4 -/

/-- The sub-environment compilation loop shared by `Adversarial.compile`,
`ChronologicalEnvironment.compile` and `AdaptiveEnvironment.compile`:
`if not environment.compiled: environment.compile(verbose_every=verbose_every)`.
`Environment.compile` requires the positional `fitness_function`
argument, which this call omits, so the first not-yet-compiled
sub-environment makes the call raise `TypeError`; already-compiled
sub-environments are left untouched. -/
def compileSubs (verbose_every : Nat) :
    List Environment → Except PyErr (List Environment)
  | [] => .ok []
  | e :: rest =>
    if e.data.compiled then
      match compileSubs verbose_every rest with
      | .error err => .error err
      | .ok es => .ok (e :: es)
    else
      .error .typeError

/-- As `compileSubs`, for the (environment, generations) stage pairs of a
`ChronologicalEnvironment`. -/
def compileSubsPairs (verbose_every : Nat) :
    List (Environment × Option Nat) → Except PyErr (List (Environment × Option Nat))
  | [] => .ok []
  | (e, g) :: rest =>
    if e.data.compiled then
      match compileSubsPairs verbose_every rest with
      | .error err => .error err
      | .ok es => .ok ((e, g) :: es)
    else
      .error .typeError

/-- `Adversarial.compile`: base compile (storing fitness function,
population, callback, report interval on the composite itself), then the
sub-environment loop.  In the source the base-compile assignments have
already mutated the object when the loop raises; the embedding's error
value does not carry them (no claim reads them). -/
def Adversarial.compile (adv : Adversarial) (fitness_function : FitnessFunction)
    (individuals : Option (List Individual)) (callback : Option Callback)
    (verbose_every : Nat) : Except PyErr Adversarial :=
  match compileSubs verbose_every adv.environments with
  | .error err => .error err
  | .ok es =>
    .ok { adv with
          data := { adv.data with
                    fitness_function := some fitness_function,
                    individuals := individuals.getD [],
                    compiled := true,
                    verbose_every := verbose_every },
          callback := callback, environments := es }

/-- `ChronologicalEnvironment.compile`: base compile, then the
stage-pair loop. -/
def ChronologicalEnvironment.compile (ch : ChronologicalEnvironment)
    (fitness_function : FitnessFunction) (individuals : Option (List Individual))
    (callback : Option Callback) (verbose_every : Nat) :
    Except PyErr ChronologicalEnvironment :=
  match compileSubsPairs verbose_every ch.environments_and_generations with
  | .error err => .error err
  | .ok es =>
    .ok { ch with
          data := { ch.data with
                    fitness_function := some fitness_function,
                    individuals := individuals.getD [],
                    compiled := true,
                    verbose_every := verbose_every },
          callback := callback, environments_and_generations := es }

/-- `AdaptiveEnvironment.compile`: base compile, then the pool loop. -/
def AdaptiveEnvironment.compile (ad : AdaptiveEnvironment)
    (fitness_function : FitnessFunction) (individuals : Option (List Individual))
    (callback : Option Callback) (verbose_every : Nat) :
    Except PyErr AdaptiveEnvironment :=
  match compileSubs verbose_every ad.environments with
  | .error err => .error err
  | .ok es =>
    .ok { ad with
          data := { ad.data with
                    fitness_function := some fitness_function,
                    individuals := individuals.getD [],
                    compiled := true,
                    verbose_every := verbose_every },
          callback := callback, environments := es }

/-- A concrete fitness-function token. -/
def wFF : FitnessFunction := ⟨0⟩

/-- A concrete not-yet-compiled sub-environment. -/
def wUncompiledEnv : Environment :=
  { data := { wEnvState with compiled := false }, layers := [growLayer],
    callback := none }

def wAdv : Adversarial :=
  { data := wEnvState, callback := none, environments := [wUncompiledEnv] }

def wAdvCompiled : Adversarial :=
  { data := wEnvState, callback := none, environments := [wEnv] }

def wChrono : ChronologicalEnvironment :=
  { data := wEnvState, callback := none,
    environments_and_generations := [(wUncompiledEnv, some 1)],
    combined_history := [], best_environment := none }

def wAdapt : AdaptiveEnvironment :=
  { data := wEnvState, callback := none, environments := [wUncompiledEnv],
    switch_every := 10, current := 0, current_generation := 0, go_for := 1 }

/-- Claim C4 fails on the code: each composite `compile` calls
`environment.compile(verbose_every=verbose_every)` on a not-yet-compiled
sub-environment, omitting the required positional `fitness_function`
argument, so the call raises `TypeError` instead of propagating the
fitness function, the callback and the report interval; and when every
sub-environment is already compiled nothing is propagated to any of
them (their stored fitness function stays `none`). -/
theorem composite_compile_raises_on_uncompiled_sub :
    (Adversarial.compile wAdv wFF none none 1 = .error .typeError) ∧
    (ChronologicalEnvironment.compile wChrono wFF none none 1 = .error .typeError) ∧
    (AdaptiveEnvironment.compile wAdapt wFF none none 1 = .error .typeError) ∧
    (∃ adv', Adversarial.compile wAdvCompiled wFF none none 1 = .ok adv' ∧
       adv'.environments = wAdvCompiled.environments ∧
       ∀ e ∈ adv'.environments, e.data.fitness_function = none) := by
  refine ⟨rfl, rfl, rfl, ⟨_, rfl, rfl, ?_⟩⟩
  intro e he
  simp only [wAdvCompiled, List.mem_singleton] at he
  subst he
  rfl

/-! ### `Adversarial.evolve` and Claim C5 -/

/-- The fold inside Python's `max(results, key=lambda x: x[1])`: the
running best is replaced only when a later item's key is strictly
greater, so the first-seen maximum wins. -/
def pyMaxAux (x : String × Int × Int) : List (String × Int × Int) → String × Int × Int
  | [] => x
  | y :: ys => pyMaxAux (if y.2.1 > x.2.1 then y else x) ys

/-- `max(results, key=lambda x: x[1])`; `none` models the `ValueError`
on an empty sequence. -/
def pyMax : List (String × Int × Int) → Option (String × Int × Int)
  | [] => none
  | x :: xs => some (pyMaxAux x xs)

/-- The per-sub-environment callback call of `Adversarial.evolve`
(`if self.callback: self.callback(individuals)`): the one-argument call
shape, mutating the sub-environment's population in place. -/
def advCallbackApply (cb : Option Callback) (e2 : Environment)
    (p : List Individual) : Environment :=
  match cb with
  | some c => { e2 with data := { e2.data with individuals := c.run1 p } }
  | none => e2

/-- The sub-environment loop of `Adversarial.evolve`.  `clock n` is the
value of the `n`-th `time.time()` call (two per sub-environment); the
wall clock is outside the program.  Accumulates `results` (name, final
history value, duration) and `results_history` (the same plus the full
history, used only for plotting).  A deactivated sub-environment returns
a bare population from `evolve`; the tuple unpacking of it (or the
indexing that follows) raises a `ValueError` or `TypeError` depending on
the population's length — collapsed here to `typeError`. -/
def advLoop (generations : Nat) (cb : Option Callback) (clock : Nat → Int) :
    List Environment → Nat →
    Except PyErr (List Environment × List (String × Int × Int) ×
                  List (String × Int × Int × List Int))
  | [], _ => .ok ([], [], [])
  | e :: rest, k =>
    match e.evolve generations with
    | .error exn => .error exn.err
    | .ok (.pop _, _) => .error .typeError
    | .ok (.popHist p h, e2) =>
      match h.getLast? with
      | none => .error .indexError
      | some lastFit =>
        match advLoop generations cb clock rest (k + 1) with
        | .error exn => .error exn
        | .ok (es, rs, rh) =>
          .ok (advCallbackApply cb e2 p :: es,
               (e2.data.name, lastFit, clock (2 * k + 1) - clock (2 * k)) :: rs,
               (e2.data.name, lastFit, clock (2 * k + 1) - clock (2 * k), h) :: rh)

/-- `Adversarial.evolve`: run every sub-environment for the same budget,
timing each; collect per-environment results; invoke the top-level
callback with each resulting population (`self.callback(individuals)`,
the one-argument call shape); print the comparison table and plot the
histories (side effects, omitted); return the result tuple with the
highest final fitness, first-seen winning ties. -/
def Adversarial.evolve (adv : Adversarial) (generations : Nat)
    (clock : Nat → Int) : Except PyErr ((String × Int × Int) × Adversarial) :=
  match advLoop generations adv.callback clock adv.environments 0 with
  | .error err => .error err
  | .ok (es, rs, _) =>
    match pyMax rs with
    | none => .error .valueError
    | some best => .ok (best, { adv with environments := es })

lemma pyMaxAux_spec :
    ∀ (xs : List (String × Int × Int)) (x : String × Int × Int),
      ∃ pre post, x :: xs = pre ++ pyMaxAux x xs :: post ∧
        (∀ y ∈ pre, y.2.1 < (pyMaxAux x xs).2.1) ∧
        (∀ y ∈ x :: xs, y.2.1 ≤ (pyMaxAux x xs).2.1) := by
  intro xs
  induction xs with
  | nil =>
    intro x
    exact ⟨[], [], rfl, by simp, by simp [pyMaxAux]⟩
  | cons y ys ih =>
    intro x
    by_cases hgt : y.2.1 > x.2.1
    · obtain ⟨pre, post, hsplit, hpre, hall⟩ := ih y
      have hmax : pyMaxAux x (y :: ys) = pyMaxAux y ys := by
        rw [pyMaxAux, if_pos hgt]
      refine ⟨x :: pre, post, ?_, ?_, ?_⟩
      · rw [hmax, List.cons_append, ← hsplit]
      · intro z hz
        rw [hmax]
        rcases List.mem_cons.mp hz with hzx | hzpre
        · subst hzx
          exact lt_of_lt_of_le hgt (hall y (by simp))
        · exact hpre z hzpre
      · intro z hz
        rw [hmax]
        rcases List.mem_cons.mp hz with hzx | hzrest
        · subst hzx
          exact le_of_lt (lt_of_lt_of_le hgt (hall y (by simp)))
        · exact hall z hzrest
    · obtain ⟨pre, post, hsplit, hpre, hall⟩ := ih x
      have hmax : pyMaxAux x (y :: ys) = pyMaxAux x ys := by
        rw [pyMaxAux, if_neg hgt]
      have hyx : y.2.1 ≤ x.2.1 := not_lt.mp hgt
      have hxm : x.2.1 ≤ (pyMaxAux x ys).2.1 := hall x (by simp)
      cases pre with
      | nil =>
        simp only [List.nil_append] at hsplit
        have hx : x = pyMaxAux x ys := (List.cons.injEq _ _ _ _ ▸ hsplit : _ ∧ _).1
        refine ⟨[], y :: ys, ?_, by simp, ?_⟩
        · rw [List.nil_append, hmax, ← hx]
        · intro z hz
          rw [hmax]
          rcases List.mem_cons.mp hz with h1 | h2
          · subst h1; exact hxm
          · rcases List.mem_cons.mp h2 with h3 | h4
            · subst h3; exact le_trans hyx hxm
            · exact hall z (List.mem_cons_of_mem _ h4)
      | cons q qre =>
        simp only [List.cons_append] at hsplit
        have hq : x = q := (List.cons.injEq _ _ _ _ ▸ hsplit : _ ∧ _).1
        have hys : ys = qre ++ pyMaxAux x ys :: post :=
          (List.cons.injEq _ _ _ _ ▸ hsplit : _ ∧ _).2
        have hqm : x.2.1 < (pyMaxAux x ys).2.1 := by
          have := hpre q (by simp)
          rw [← hq] at this
          exact this
        refine ⟨x :: y :: qre, post, ?_, ?_, ?_⟩
        · simp only [List.cons_append]
          rw [hmax, ← hys]
        · intro z hz
          rw [hmax]
          rcases List.mem_cons.mp hz with h1 | h2
          · subst h1; exact hqm
          · rcases List.mem_cons.mp h2 with h3 | h4
            · subst h3; exact lt_of_le_of_lt hyx hqm
            · exact hpre z (List.mem_cons_of_mem _ h4)
        · intro z hz
          rw [hmax]
          rcases List.mem_cons.mp hz with h1 | h2
          · subst h1; exact hxm
          · rcases List.mem_cons.mp h2 with h3 | h4
            · subst h3; exact le_trans hyx hxm
            · exact hall z (List.mem_cons_of_mem _ h4)

lemma advLoop_ok (generations : Nat) (cb : Option Callback) (clock : Nat → Int) :
    ∀ (envs : List Environment) (k : Nat),
      (∀ e ∈ envs, ∃ p h e2, e.evolve generations = .ok (.popHist p h, e2) ∧ h ≠ []) →
      ∃ es rs rh, advLoop generations cb clock envs k = .ok (es, rs, rh) ∧
        rs.length = envs.length ∧
        ∀ (j : Nat) (e : Environment), envs[j]? = some e →
          ∃ p h e2 lf, e.evolve generations = .ok (.popHist p h, e2) ∧
            h.getLast? = some lf ∧
            rs[j]? = some (e.data.name, lf,
              clock (2 * (k + j) + 1) - clock (2 * (k + j))) := by
  intro envs
  induction envs with
  | nil =>
    intro k _
    exact ⟨[], [], [], rfl, rfl, by intro j e hj; simp at hj⟩
  | cons e rest ih =>
    intro k hruns
    obtain ⟨p, h, e2, hev, hhne⟩ := hruns e (by simp)
    obtain ⟨es, rs, rh, hloop, hlen, hcorr⟩ :=
      ih (k + 1) (fun e' he' => hruns e' (List.mem_cons_of_mem _ he'))
    have hname : e2.data.name = e.data.name := by
      cases evolve_ok_cases hev with
      | inl hcase => exact absurd hcase.2.1 (by simp)
      | inr hcase =>
        exact (evolve_ok_parts hcase.1 hev).2.2.2.2.1
    have hlast : h.getLast? = some (h.getLast hhne) := List.getLast?_eq_getLast _ hhne
    refine ⟨advCallbackApply cb e2 p :: es,
            (e2.data.name, h.getLast hhne, clock (2 * k + 1) - clock (2 * k)) :: rs,
            (e2.data.name, h.getLast hhne, clock (2 * k + 1) - clock (2 * k), h) :: rh,
            ?_, ?_, ?_⟩
    · simp only [advLoop, hev, hlast, hloop]
    · simp [hlen]
    · intro j e' hj
      cases j with
      | zero =>
        simp only [List.getElem?_cons_zero, Option.some.injEq] at hj
        subst hj
        refine ⟨p, h, e2, h.getLast hhne, hev, hlast, ?_⟩
        simp [hname]
      | succ j' =>
        simp only [List.getElem?_cons_succ] at hj
        obtain ⟨p', h', e2', lf', hev', hlast', hrs'⟩ := hcorr j' e' hj
        refine ⟨p', h', e2', lf', hev', hlast', ?_⟩
        have harith : k + 1 + j' = k + (j' + 1) := by omega
        rw [← harith]
        simpa using hrs'

/-- Claim C5: for a non-empty list of sub-environments whose runs all
produce a non-empty history, `Adversarial.evolve` returns the
(name, final history value, duration) tuple of the sub-environment whose
final history value is the maximum over all sub-environments, and on a
tie the first-listed sub-environment wins (every result strictly earlier
in the results list has strictly smaller final fitness). -/
theorem adversarial_evolve_returns_first_max (adv : Adversarial)
    (generations : Nat) (clock : Nat → Int)
    (hne : adv.environments ≠ [])
    (hruns : ∀ e ∈ adv.environments,
       ∃ p h e2, e.evolve generations = .ok (.popHist p h, e2) ∧ h ≠ []) :
    ∃ (winner : String × Int × Int) (adv' : Adversarial)
      (rs : List (String × Int × Int)),
      adv.evolve generations clock = .ok (winner, adv') ∧
      rs.length = adv.environments.length ∧
      (∀ (j : Nat) (e : Environment), adv.environments[j]? = some e →
         ∃ p h e2 lf, e.evolve generations = .ok (.popHist p h, e2) ∧
           h.getLast? = some lf ∧
           rs[j]? = some (e.data.name, lf, clock (2 * j + 1) - clock (2 * j))) ∧
      (∃ pre post, rs = pre ++ winner :: post ∧
         ∀ y ∈ pre, y.2.1 < winner.2.1) ∧
      (∀ y ∈ rs, y.2.1 ≤ winner.2.1) := by
  obtain ⟨es, rs, rh, hloop, hlen, hcorr⟩ :=
    advLoop_ok generations adv.callback clock adv.environments 0 hruns
  cases hrs : rs with
  | nil =>
    exfalso
    rw [hrs] at hlen
    exact hne (List.length_eq_zero.mp hlen.symm)
  | cons x xs =>
    obtain ⟨pre, post, hsplit, hpre, hall⟩ := pyMaxAux_spec xs x
    refine ⟨pyMaxAux x xs, { adv with environments := es }, rs, ?_, hlen, ?_, ?_, ?_⟩
    · simp only [Adversarial.evolve, hloop, hrs, pyMax]
    · intro j e hj
      obtain ⟨p, h, e2, lf, hev, hlast, hrsj⟩ := hcorr j e hj
      refine ⟨p, h, e2, lf, hev, hlast, ?_⟩
      simpa using hrsj
    · exact ⟨pre, post, by rw [hrs, hsplit], hpre⟩
    · intro y hy
      rw [hrs] at hy
      exact hall y hy

/-- Witness for C5 at a concrete adversarial environment with one
sub-environment, one generation, and a constant external clock. -/
theorem adversarial_evolve_returns_first_max_witness :
    ∃ (winner : String × Int × Int) (adv' : Adversarial)
      (rs : List (String × Int × Int)),
      wAdvCompiled.evolve 1 (fun _ => 0) = .ok (winner, adv') ∧
      rs.length = wAdvCompiled.environments.length ∧
      (∀ (j : Nat) (e : Environment), wAdvCompiled.environments[j]? = some e →
         ∃ p h e2 lf, e.evolve 1 = .ok (.popHist p h, e2) ∧
           h.getLast? = some lf ∧
           rs[j]? = some (e.data.name, lf,
             (fun _ => (0 : Int)) (2 * j + 1) - (fun _ => (0 : Int)) (2 * j))) ∧
      (∃ pre post, rs = pre ++ winner :: post ∧
         ∀ y ∈ pre, y.2.1 < winner.2.1) ∧
      (∀ y ∈ rs, y.2.1 ≤ winner.2.1) :=
  adversarial_evolve_returns_first_max wAdvCompiled 1 (fun _ => 0)
    (by simp [wAdvCompiled])
    (by
      intro e he
      simp only [wAdvCompiled, List.mem_singleton] at he
      subst he
      exact ⟨_, _, _, rfl, by simp⟩)

/-! ### `ChronologicalEnvironment.evolve` and Claim C6 -/

/-- The best-stage update of `ChronologicalEnvironment.evolve`:
`if not self.best_environment or history[-1] > self.best_environment[1]`. -/
def chronoBestUpdate (best : Option (String × Int)) (name : String)
    (lastFit : Int) : Option (String × Int) :=
  match best with
  | none => some (name, lastFit)
  | some (bn, bf) => if lastFit > bf then some (name, lastFit) else some (bn, bf)

/-- The stage loop of `ChronologicalEnvironment.evolve`.  Each stage
environment is handed the composite's population object
(`env.individuals = self.individuals`) and runs against it in place, so
when the loop then runs `self.individuals.extend(individuals)` both
names refer to the same list and the population doubles (`p ++ p`).
The stage's history is reset to a fresh empty list after being read;
the returned full history (`h`) is appended to the combined history.
A stage with no explicit generation count falls back to the
caller-supplied count (the warning it prints is a side effect, omitted).
A deactivated stage environment returns a bare population from `evolve`
and the tuple unpacking of it fails — collapsed here to `valueError`.
The stored stage environment keeps aliasing the composite's population
object; the embedding records that object's value as of the hand-off
(`p ++ p`), later growth being visible through the composite's own
field. -/
def chronoLoop (generations : Nat) :
    List (Environment × Option Nat) → List Individual → List Int →
    Option (String × Int) →
    Except PyErr (List (Environment × Option Nat) × List Individual ×
                  List Int × Option (String × Int))
  | [], indiv, ch, best => .ok ([], indiv, ch, best)
  | (e, gOpt) :: rest, indiv, ch, best =>
    match ({ e with data := { e.data with individuals := indiv } } :
        Environment).evolve (gOpt.getD generations) with
    | .error exn => .error exn.err
    | .ok (.pop _, _) => .error .valueError
    | .ok (.popHist p h, e2) =>
      match h.getLast? with
      | none => .error .indexError
      | some lastFit =>
        match chronoLoop generations rest (p ++ p) (ch ++ h)
            (chronoBestUpdate best e2.data.name lastFit) with
        | .error exn => .error exn
        | .ok (es, iF, chF, bF) =>
          .ok (({ e2 with
                  data := { e2.data with
                            history := [],
                            individuals := p ++ p } }, gOpt) :: es,
               iF, chF, bF)

/-- `ChronologicalEnvironment.evolve`: run the stage pairs in order,
handing the accumulated population along, concatenating histories, and
tracking the best-ending stage; returns the accumulated population and
the combined history. -/
def ChronologicalEnvironment.evolve (ch : ChronologicalEnvironment)
    (generations : Nat) :
    Except PyErr ((List Individual × List Int) × ChronologicalEnvironment) :=
  match chronoLoop generations ch.environments_and_generations
      ch.data.individuals ch.combined_history ch.best_environment with
  | .error err => .error err
  | .ok (es, iF, chF, bF) =>
    .ok ((iF, chF),
         { ch with
           data := { ch.data with individuals := iF },
           environments_and_generations := es,
           combined_history := chF,
           best_environment := bF })

/-- `l1 <+: l2` transfers along appending (local helpers keep the
development self-contained). -/
lemma isPre_trans {l1 l2 l3 : List Int} (h1 : l1 <+: l2) (h2 : l2 <+: l3) :
    l1 <+: l3 := by
  obtain ⟨t1, ht1⟩ := h1
  obtain ⟨t2, ht2⟩ := h2
  exact ⟨t1 ++ t2, by rw [← ht2, ← ht1, List.append_assoc]⟩

lemma isPre_refl (l : List Int) : l <+: l := ⟨[], List.append_nil _⟩

lemma isPre_append_right (l t : List Int) : l <+: l ++ t := ⟨t, rfl⟩

lemma take_length_of_isPre {l1 l2 : List Int} (h : l1 <+: l2) :
    l2.take l1.length = l1 := by
  obtain ⟨t, ht⟩ := h
  rw [← ht]
  exact List.take_left l1 t

lemma chronoLoop_ok_parts (generations : Nat) :
    ∀ (stages : List (Environment × Option Nat)) (gs : List Nat)
      (indiv : List Individual) (C : List Int) (best : Option (String × Int))
      (es : List (Environment × Option Nat)) (iF : List Individual)
      (chF : List Int) (bF : Option (String × Int)),
      chronoLoop generations stages indiv C best = .ok (es, iF, chF, bF) →
      stages.map Prod.snd = gs.map some →
      (∀ pe ∈ stages, pe.1.data.history = []) →
      chF.length = C.length + gs.sum ∧
      C <+: chF ∧
      (∀ pe ∈ es, pe.1.data.history = []) ∧
      (∀ e gOpt rest, stages = (e, gOpt) :: rest →
         ∃ p h e2,
           ({ e with data := { e.data with individuals := indiv } } :
               Environment).evolve (gOpt.getD generations) =
             .ok (.popHist p h, e2) ∧
           (C ++ h) <+: chF) := by
  intro stages
  induction stages with
  | nil =>
    intro gs indiv C best es iF chF bF h hmap hfresh
    cases h
    have hgs : gs = [] := by
      cases gs with
      | nil => rfl
      | cons g gs' => exact absurd hmap.symm (by simp)
    subst hgs
    refine ⟨by simp, isPre_refl _, by simp, ?_⟩
    intro e gOpt rest hcons
    exact absurd hcons (by simp)
  | cons pe rest ih =>
    intro gs indiv C best es iF chF bF h hmap hfresh
    obtain ⟨e, gOpt⟩ := pe
    cases gs with
    | nil => exact absurd hmap (by simp)
    | cons g gs' =>
      simp only [List.map_cons, List.cons.injEq] at hmap
      obtain ⟨hg, hmap'⟩ := hmap
      rw [chronoLoop] at h
      split at h
      · exact absurd h (by simp)
      · exact absurd h (by simp)
      · rename_i p hh e2 hev
        split at h
        · exact absurd h (by simp)
        · rename_i lastFit hlast
          split at h
          · exact absurd h (by simp)
          · rename_i es' iF' chF' bF' hloop
            simp only [Except.ok.injEq, Prod.mk.injEq] at h
            obtain ⟨hes, hiF, hchF, hbF⟩ := h
            have hhlen : hh.length = g := by
              cases evolve_ok_cases hev with
              | inl hcase => exact absurd hcase.2.1 (by simp)
              | inr hcase =>
                obtain ⟨hd, hsteps, hr⟩ := hcase
                simp only [EvolveResult.popHist.injEq] at hr
                obtain ⟨hpe, hhe⟩ := hr
                have hfr : e.data.history = [] := hfresh (e, gOpt) (by simp)
                have hl := (evolve_ok_parts hd hev).2.1
                rw [hhe, hl]
                simp [hfr, hg]
            obtain ⟨hlen', hpre', hfresh', _⟩ :=
              ih gs' (p ++ p) (C ++ hh)
                (chronoBestUpdate best e2.data.name lastFit)
                es' iF' chF' bF' hloop hmap'
                (fun pe hpe => hfresh pe (List.mem_cons_of_mem _ hpe))
            subst hchF
            refine ⟨?_, ?_, ?_, ?_⟩
            · rw [hlen']
              simp [hhlen]
              omega
            · exact isPre_trans (isPre_append_right C hh) hpre'
            · intro q hq
              rw [← hes] at hq
              rcases List.mem_cons.mp hq with h1 | h2
              · subst h1; rfl
              · exact hfresh' q h2
            · intro e0 gOpt0 rest0 hcons
              simp only [List.cons.injEq, Prod.mk.injEq] at hcons
              obtain ⟨⟨he0, hg0⟩, hrest0⟩ := hcons
              subst he0
              subst hg0
              exact ⟨p, hh, e2, hev, hpre'⟩

/-- Claim C6: for a `ChronologicalEnvironment` whose stage pairs carry
explicit generation counts `[g1, …, gk]`, with fresh (empty) combined
and per-stage histories, a normally completing `evolve` returns a
combined history of length `g1 + … + gk` whose first `g1` entries are
exactly the first stage environment's own run history, and every stage
environment's own history is empty after being consumed. -/
theorem chronological_evolve_concatenates (ch : ChronologicalEnvironment)
    (generations : Nat) (gs : List Nat) (ret : List Individual × List Int)
    (ch' : ChronologicalEnvironment)
    (hok : ch.evolve generations = .ok (ret, ch'))
    (hcounts : ch.environments_and_generations.map Prod.snd = gs.map some)
    (hfreshc : ch.combined_history = [])
    (hfresh : ∀ pe ∈ ch.environments_and_generations, pe.1.data.history = []) :
    ret.2 = ch'.combined_history ∧
    ch'.combined_history.length = gs.sum ∧
    (∀ e gOpt rest, ch.environments_and_generations = (e, gOpt) :: rest →
       ∃ p h e2,
         ({ e with data := { e.data with individuals := ch.data.individuals } } :
             Environment).evolve (gOpt.getD generations) =
           .ok (.popHist p h, e2) ∧
         ch'.combined_history.take h.length = h) ∧
    (∀ pe ∈ ch'.environments_and_generations, pe.1.data.history = []) := by
  unfold ChronologicalEnvironment.evolve at hok
  split at hok
  · exact absurd hok (by simp)
  · rename_i es iF chF bF hloop
    simp only [Except.ok.injEq, Prod.mk.injEq] at hok
    obtain ⟨hret, hch'⟩ := hok
    subst hch'
    obtain ⟨hlen, hpre, hfr', hfirst⟩ :=
      chronoLoop_ok_parts generations ch.environments_and_generations gs
        ch.data.individuals ch.combined_history ch.best_environment
        es iF chF bF hloop hcounts hfresh
    have hchFlen : chF.length = gs.sum := by
      rw [hlen, hfreshc]
      simp
    refine ⟨?_, ?_, ?_, ?_⟩
    · rw [← hret]
    · exact hchFlen
    · intro e gOpt rest hcons
      obtain ⟨p, h, e2, hev, hpre2⟩ := hfirst e gOpt rest hcons
      rw [hfreshc, List.nil_append] at hpre2
      exact ⟨p, h, e2, hev, take_length_of_isPre hpre2⟩
    · exact hfr'

/-- A concrete chronological composite with one fresh stage pair
carrying an explicit generation count. -/
def wChronoRun : ChronologicalEnvironment :=
  { data := wEnvState, callback := none,
    environments_and_generations := [(wEnv, some 2)],
    combined_history := [], best_environment := none }

/-- Witness for C6 at a concrete chronological environment with stage
counts `[2]`. -/
theorem chronological_evolve_concatenates_witness :
    ∃ (ret : List Individual × List Int) (ch' : ChronologicalEnvironment),
      wChronoRun.evolve 1 = .ok (ret, ch') ∧
      (ret.2 = ch'.combined_history ∧
       ch'.combined_history.length = [2].sum ∧
       (∀ e gOpt rest, wChronoRun.environments_and_generations = (e, gOpt) :: rest →
          ∃ p h e2,
            ({ e with data := { e.data with individuals := wChronoRun.data.individuals } } :
                Environment).evolve (gOpt.getD 1) = .ok (.popHist p h, e2) ∧
            ch'.combined_history.take h.length = h) ∧
       (∀ pe ∈ ch'.environments_and_generations, pe.1.data.history = [])) :=
  ⟨_, _, rfl, chronological_evolve_concatenates wChronoRun 1 [2] _ _ rfl rfl rfl
    (by
      intro pe hpe
      simp only [wChronoRun, List.mem_singleton] at hpe
      subst hpe
      rfl)⟩

/-! ### `AdaptiveEnvironment`: weighted switching (`evolve`) and greedy
switching (`switch_environment`) -/

/-- `fitness_increase > max_fitness_increase` where
`max_fitness_increase` starts at `-float('inf')`: `none` models the
`-inf` sentinel, which every integer exceeds. -/
def gtMax (inc : Int) (m : Option Int) : Bool :=
  match m with
  | none => true
  | some v => decide (v < inc)

/-- The deactivation pass of `AdaptiveEnvironment.smart_evolve`:
`for i in self.environments: if i.fitness < 1: i.deactivate()`
(the announcement print is a side effect, omitted). -/
def deactivateUnfit (envs : List Environment) : List Environment :=
  envs.map (fun e =>
    if e.data.fitness < 1 then
      { e with data := { e.data with deactivated := true } }
    else e)

/-- `AdaptiveEnvironment.smart_evolve`: deactivate every unfit pool
member, then on every `switch_every`-th composite iteration draw a new
active member with probability proportional to the members' `fitness`
values (`random.choices(choices, weights, k=1)[0]`), otherwise keep the
current one.  The random generator is outside the program: `draw` stands
for it, receiving the candidate list and the weights and returning the
index of the chosen member (the source returns the member object).
`iteration % switch_every` raises `ZeroDivisionError` when the interval
is zero, and `random.choices` raises `ValueError` when the weight total
is not positive (the degenerate case the spec flags).  In the source the
deactivation pass happens before the modulo is evaluated; on the error
paths the embedding drops that mutation (nothing reads it). -/
def AdaptiveEnvironment.smart_evolve (ad : AdaptiveEnvironment)
    (draw : List Environment → List Int → Nat) :
    Except PyErr (AdaptiveEnvironment × Nat) :=
  if ad.switch_every = 0 then .error .zeroDivisionError
  else if ad.data.iteration % ad.switch_every = 0 then
    if ((deactivateUnfit ad.environments).map (fun e => e.data.fitness)).sum ≤ 0 then
      .error .valueError
    else
      .ok ({ ad with environments := deactivateUnfit ad.environments },
           draw (deactivateUnfit ad.environments)
             ((deactivateUnfit ad.environments).map (fun e => e.data.fitness)))
  else
    .ok ({ ad with environments := deactivateUnfit ad.environments }, ad.current)

/-- One outer iteration of `AdaptiveEnvironment.evolve`: bump both
counters, select via `smart_evolve`, hand the selected member the
current member's population and history (`new.individuals = ...;
new.history = ...` are reference hand-offs in the source, aliasing the
two members' attributes; the embedding copies the values, and later
growth shows in the active member, which no claim compares against the
stale one), make the selected member current, and run it for one
generation, discarding its return value. -/
def AdaptiveEnvironment.evolveStep (ad : AdaptiveEnvironment)
    (draw : List Environment → List Int → Nat) :
    Except PyErr AdaptiveEnvironment :=
  match ({ ad with
           data := { ad.data with iteration := ad.data.iteration + 1 },
           current_generation := ad.current_generation + 1 } :
      AdaptiveEnvironment).smart_evolve draw with
  | .error err => .error err
  | .ok (ad1, newIdx) =>
    match ad1.environments[ad1.current]? with
    | none => .error .indexError
    | some curE =>
      match ad1.environments[newIdx]? with
      | none => .error .indexError
      | some newE =>
        match ({ newE with
                 data := { newE.data with
                           individuals := curE.data.individuals,
                           history := curE.data.history } } :
            Environment).evolve 1 with
        | .error exn => .error exn.err
        | .ok (_, newE3) =>
          .ok { ad1 with
                environments := ad1.environments.set newIdx newE3,
                current := newIdx }

/-- The `for i in range(generations)` loop of
`AdaptiveEnvironment.evolve`. -/
def AdaptiveEnvironment.evolveAux (draw : List Environment → List Int → Nat) :
    Nat → AdaptiveEnvironment → Except PyErr AdaptiveEnvironment
  | 0, ad => .ok ad
  | Nat.succ n, ad =>
    match ad.evolveStep draw with
    | .error err => .error err
    | .ok ad1 => AdaptiveEnvironment.evolveAux draw n ad1

/-- `AdaptiveEnvironment.evolve`: run the outer loop, then return
`self.individuals, self.history` — the composite's own fields, which no
step of the loop writes (all evolution happens inside pool members). -/
def AdaptiveEnvironment.evolve (ad : AdaptiveEnvironment)
    (draw : List Environment → List Int → Nat) (generations : Nat) :
    Except PyErr ((List Individual × List Int) × AdaptiveEnvironment) :=
  match AdaptiveEnvironment.evolveAux draw generations ad with
  | .error err => .error err
  | .ok adF => .ok ((adF.data.individuals, adF.data.history), adF)

/-- The trial loop of `AdaptiveEnvironment.switch_environment`: every
pool member in turn is handed the population object of the (old) current
member (`environment.individuals = self.current_environment.individuals`
— after the first hand-off every member aliases one shared list, which
each trial's stages mutate in place, so the trials compound on one
population, threaded here as `shared`), run for `go_for` generations
(result discarded, errors propagating), and its gain — the shared
population's last candidate fitness minus the baseline — replaces the
running maximum only when strictly greater, so the first maximal member
is kept. -/
def switchLoop (go_for : Nat) (first : Int) :
    List Environment → List Individual → (Option Int × Option Nat) → Nat →
    Except PyErr (List Environment × List Individual × (Option Int × Option Nat))
  | [], shared, acc, _ => .ok ([], shared, acc)
  | e :: rest, shared, acc, k =>
    match ({ e with data := { e.data with individuals := shared } } :
        Environment).evolve go_for with
    | .error exn => .error exn.err
    | .ok (_, e2) =>
      match e2.data.individuals.getLast? with
      | none => .error .indexError
      | some lastInd =>
        match switchLoop go_for first rest e2.data.individuals
            (if gtMax (lastInd.fitness - first) acc.1 then
               (some (lastInd.fitness - first), some k)
             else acc) (k + 1) with
        | .error exn => .error exn
        | .ok (es, sh, accF) => .ok (e2 :: es, sh, accF)

/-- The list of per-member fitness gains the trial loop measures, in
pool order: a projection of `switchLoop` used to state what
`switch_environment` selects. -/
def switchTrialGains (go_for : Nat) (first : Int) :
    List Environment → List Individual → Except PyErr (List Int)
  | [], _ => .ok []
  | e :: rest, shared =>
    match ({ e with data := { e.data with individuals := shared } } :
        Environment).evolve go_for with
    | .error exn => .error exn.err
    | .ok (_, e2) =>
      match e2.data.individuals.getLast? with
      | none => .error .indexError
      | some lastInd =>
        match switchTrialGains go_for first rest e2.data.individuals with
        | .error exn => .error exn
        | .ok gains => .ok ((lastInd.fitness - first) :: gains)

/-- `AdaptiveEnvironment.switch_environment`: record the last candidate
fitness of the current member as the baseline, trial-run every pool
member, and make the member with the first strictly-largest gain the new
current member (`if best_environment:` — an Environment object is
truthy).  After the loop every pool member aliases the one shared
population object, so every stored member carries its final value; the
assignment `best_environment.individuals = self.current_environment.individuals`
re-binds an already-aliased attribute and changes no value. -/
def AdaptiveEnvironment.switch_environment (ad : AdaptiveEnvironment) :
    Except PyErr AdaptiveEnvironment :=
  match ad.environments[ad.current]? with
  | none => .error .indexError
  | some cur =>
    match cur.data.individuals.getLast? with
    | none => .error .indexError
    | some li =>
      match switchLoop ad.go_for li.fitness ad.environments
          cur.data.individuals (none, none) 0 with
      | .error err => .error err
      | .ok (es, shared, acc) =>
        match acc.2 with
        | some b =>
          .ok { ad with
                environments := es.map (fun e =>
                  { e with data := { e.data with individuals := shared } }),
                current := b }
        | none =>
          .ok { ad with
                environments := es.map (fun e =>
                  { e with data := { e.data with individuals := shared } }) }

/-- The argmax fold that `switchLoop` performs on the gains:
`(max_fitness_increase, best_environment)` threaded in pool order. -/
def foldArgmax : Option Int × Option Nat → List Int → Nat → Option Int × Option Nat
  | acc, [], _ => acc
  | acc, g :: gs, k =>
    foldArgmax (if gtMax g acc.1 then (some g, some k) else acc) gs (k + 1)

/-! ### Claim C10 -/

lemma smart_evolve_frame {ad : AdaptiveEnvironment}
    {draw : List Environment → List Int → Nat}
    {ad1 : AdaptiveEnvironment} {idx : Nat}
    (h : ad.smart_evolve draw = .ok (ad1, idx)) : ad1.data = ad.data := by
  unfold AdaptiveEnvironment.smart_evolve at h
  split at h
  · exact absurd h (by simp)
  · split at h
    · split at h
      · exact absurd h (by simp)
      · simp only [Except.ok.injEq, Prod.mk.injEq] at h
        rw [← h.1]
    · simp only [Except.ok.injEq, Prod.mk.injEq] at h
      rw [← h.1]

lemma evolveStep_frame {ad ad' : AdaptiveEnvironment}
    {draw : List Environment → List Int → Nat}
    (h : ad.evolveStep draw = .ok ad') :
    ad'.data.individuals = ad.data.individuals ∧
    ad'.data.history = ad.data.history := by
  unfold AdaptiveEnvironment.evolveStep at h
  split at h
  · exact absurd h (by simp)
  · rename_i ad1 newIdx hse
    split at h
    · exact absurd h (by simp)
    · rename_i curE hcur
      split at h
      · exact absurd h (by simp)
      · rename_i newE hnew
        split at h
        · exact absurd h (by simp)
        · rename_i r newE3 hev
          simp only [Except.ok.injEq] at h
          have hd := smart_evolve_frame hse
          constructor
          · rw [← h, hd]
          · rw [← h, hd]

lemma evolveAux_frame (draw : List Environment → List Int → Nat) :
    ∀ (n : Nat) (ad ad' : AdaptiveEnvironment),
      AdaptiveEnvironment.evolveAux draw n ad = .ok ad' →
      ad'.data.individuals = ad.data.individuals ∧
      ad'.data.history = ad.data.history := by
  intro n
  induction n with
  | zero => intro ad ad' h; cases h; exact ⟨rfl, rfl⟩
  | succ m ih =>
    intro ad ad' h
    rw [AdaptiveEnvironment.evolveAux] at h
    split at h
    · exact absurd h (by simp)
    · rename_i ad1 hstep
      obtain ⟨hi, hh⟩ := ih ad1 ad' h
      obtain ⟨hi2, hh2⟩ := evolveStep_frame hstep
      exact ⟨hi.trans hi2, hh.trans hh2⟩

/-- Claim C10: `AdaptiveEnvironment.evolve(N)` never writes the
composite's own population or fitness history — all evolution happens
inside the pool members — so the (population, history) pair it returns
is exactly what the composite held before the call, and the composite's
fields still hold those values afterwards. -/
theorem adaptive_evolve_composite_frame (ad : AdaptiveEnvironment)
    (draw : List Environment → List Int → Nat) (N : Nat)
    (ret : List Individual × List Int) (ad' : AdaptiveEnvironment)
    (hok : ad.evolve draw N = .ok (ret, ad')) :
    ret = (ad.data.individuals, ad.data.history) ∧
    ad'.data.individuals = ad.data.individuals ∧
    ad'.data.history = ad.data.history := by
  unfold AdaptiveEnvironment.evolve at hok
  split at hok
  · exact absurd hok (by simp)
  · rename_i adF haux
    simp only [Except.ok.injEq, Prod.mk.injEq] at hok
    obtain ⟨hret, hadF⟩ := hok
    obtain ⟨hi, hh⟩ := evolveAux_frame draw N ad adF haux
    subst hadF
    exact ⟨by rw [← hret, hi, hh], hi, hh⟩

/-- Witness for C10 at a concrete adaptive composite, one generation, a
trivial draw. -/
theorem adaptive_evolve_composite_frame_witness :
    ∃ (ret : List Individual × List Int) (ad' : AdaptiveEnvironment),
      wAdapt.evolve (fun _ _ => 0) 1 = .ok (ret, ad') ∧
      (ret = (wAdapt.data.individuals, wAdapt.data.history) ∧
       ad'.data.individuals = wAdapt.data.individuals ∧
       ad'.data.history = wAdapt.data.history) :=
  ⟨_, _, rfl, adaptive_evolve_composite_frame wAdapt (fun _ _ => 0) 1 _ _ rfl⟩

/-! ### Claim C7 -/

lemma switchTrialGains_length (go_for : Nat) (first : Int) :
    ∀ (envs : List Environment) (shared : List Individual) (gains : List Int),
      switchTrialGains go_for first envs shared = .ok gains →
      gains.length = envs.length := by
  intro envs
  induction envs with
  | nil => intro shared gains h; cases h; rfl
  | cons e rest ih =>
    intro shared gains h
    rw [switchTrialGains] at h
    split at h
    · exact absurd h (by simp)
    · rename_i r e2 hev
      split at h
      · exact absurd h (by simp)
      · rename_i lastInd hlast
        split at h
        · exact absurd h (by simp)
        · rename_i gains' hrec
          simp only [Except.ok.injEq] at h
          subst h
          simp [ih _ _ hrec]

lemma switchLoop_of_gains (go_for : Nat) (first : Int) :
    ∀ (envs : List Environment) (shared : List Individual) (gains : List Int),
      switchTrialGains go_for first envs shared = .ok gains →
      ∀ (acc : Option Int × Option Nat) (k : Nat),
        ∃ es sh, switchLoop go_for first envs shared acc k =
          .ok (es, sh, foldArgmax acc gains k) := by
  intro envs
  induction envs with
  | nil =>
    intro shared gains h acc k
    cases h
    exact ⟨[], shared, rfl⟩
  | cons e rest ih =>
    intro shared gains h acc k
    rw [switchTrialGains] at h
    split at h
    · exact absurd h (by simp)
    · rename_i r e2 hev
      split at h
      · exact absurd h (by simp)
      · rename_i lastInd hlast
        split at h
        · exact absurd h (by simp)
        · rename_i gains' hrec
          simp only [Except.ok.injEq] at h
          subst h
          obtain ⟨es, sh, hloop⟩ := ih e2.data.individuals gains' hrec
            (if gtMax (lastInd.fitness - first) acc.1 then
               (some (lastInd.fitness - first), some k)
             else acc) (k + 1)
          refine ⟨e2 :: es, sh, ?_⟩
          simp only [switchLoop, hev, hlast, hloop, foldArgmax]

lemma foldArgmax_go :
    ∀ (gains : List Int) (k : Nat) (m : Option Int) (i : Option Nat),
      (foldArgmax (m, i) gains k = (m, i) ∧ ∀ x ∈ gains, gtMax x m = false) ∨
      (∃ j g, gains[j]? = some g ∧
         foldArgmax (m, i) gains k = (some g, some (k + j)) ∧
         gtMax g m = true ∧
         (∀ x ∈ gains, x ≤ g) ∧
         (∀ j2 x, j2 < j → gains[j2]? = some x → x < g)) := by
  intro gains
  induction gains with
  | nil =>
    intro k m i
    exact Or.inl ⟨rfl, by simp⟩
  | cons g0 gs ih =>
    intro k m i
    by_cases hbeat : gtMax g0 m = true
    · have hstep : foldArgmax (m, i) (g0 :: gs) k =
          foldArgmax (some g0, some k) gs (k + 1) := by
        simp only [foldArgmax, hbeat, if_true]
      rcases ih (k + 1) (some g0) (some k) with ⟨heq, hall⟩ |
        ⟨j, g, hj, heq, hgt, hall, hstrict⟩
      · refine Or.inr ⟨0, g0, by simp, ?_, hbeat, ?_, ?_⟩
        · rw [hstep, heq]
          simp
        · intro x hx
          rcases List.mem_cons.mp hx with h1 | h2
          · subst h1; exact le_refl _
          · have hf : ¬ (g0 < x) := by simpa [gtMax] using hall x h2
            exact not_lt.mp hf
        · intro j2 x hj2 _
          exact absurd hj2 (Nat.not_lt_zero _)
      · have hg0g : g0 < g := by simpa [gtMax] using hgt
        refine Or.inr ⟨j + 1, g, by simpa using hj, ?_, ?_, ?_, ?_⟩
        · rw [hstep, heq]
          have harith : k + 1 + j = k + (j + 1) := by omega
          rw [harith]
        · cases m with
          | none => rfl
          | some v =>
            have hv : v < g0 := by simpa [gtMax] using hbeat
            simp only [gtMax, decide_eq_true_eq]
            omega
        · intro x hx
          rcases List.mem_cons.mp hx with h1 | h2
          · subst h1; exact le_of_lt hg0g
          · exact hall x h2
        · intro j2 x hj2 hx
          cases j2 with
          | zero =>
            simp only [List.getElem?_cons_zero, Option.some.injEq] at hx
            subst hx
            exact hg0g
          | succ j2' =>
            simp only [List.getElem?_cons_succ] at hx
            exact hstrict j2' x (by omega) hx
    · have hm : ∃ v, m = some v ∧ g0 ≤ v := by
        cases m with
        | none => simp [gtMax] at hbeat
        | some v =>
          refine ⟨v, rfl, ?_⟩
          have hf : ¬ (v < g0) := by simpa [gtMax] using hbeat
          exact not_lt.mp hf
      obtain ⟨v, hmv, hg0v⟩ := hm
      have hstep : foldArgmax (m, i) (g0 :: gs) k = foldArgmax (m, i) gs (k + 1) := by
        simp only [foldArgmax]
        rw [if_neg (by simpa using hbeat)]
      rcases ih (k + 1) m i with ⟨heq, hall⟩ |
        ⟨j, g, hj, heq, hgt, hall, hstrict⟩
      · refine Or.inl ⟨by rw [hstep, heq], ?_⟩
        intro x hx
        rcases List.mem_cons.mp hx with h1 | h2
        · subst h1
          simpa using hbeat
        · exact hall x h2
      · have hvg : v < g := by
          rw [hmv] at hgt
          simpa [gtMax] using hgt
        refine Or.inr ⟨j + 1, g, by simpa using hj, ?_, hgt, ?_, ?_⟩
        · rw [hstep, heq]
          have harith : k + 1 + j = k + (j + 1) := by omega
          rw [harith]
        · intro x hx
          rcases List.mem_cons.mp hx with h1 | h2
          · subst h1; omega
          · exact hall x h2
        · intro j2 x hj2 hx
          cases j2 with
          | zero =>
            simp only [List.getElem?_cons_zero, Option.some.injEq] at hx
            subst hx
            omega
          | succ j2' =>
            simp only [List.getElem?_cons_succ] at hx
            exact hstrict j2' x (by omega) hx

lemma foldArgmax_none_spec (gains : List Int) (hne : gains ≠ []) :
    ∃ j g, gains[j]? = some g ∧
      foldArgmax (none, none) gains 0 = (some g, some j) ∧
      (∀ x ∈ gains, x ≤ g) ∧
      (∀ j2 x, j2 < j → gains[j2]? = some x → x < g) := by
  rcases foldArgmax_go gains 0 none none with ⟨_, hall⟩ |
    ⟨j, g, hj, heq, _, hall, hstrict⟩
  · exfalso
    cases gains with
    | nil => exact hne rfl
    | cons g0 gs => simpa [gtMax] using hall g0 (by simp)
  · exact ⟨j, g, hj, by simpa using heq, hall, hstrict⟩

/-- Claim C7: with a non-empty pool and normally completing trial runs,
`switch_environment` hands each pool member the current population in
turn, runs it for `go_for` generations, measures its gain — last
candidate fitness over the baseline (the current member's last candidate
fitness before any trial) — and makes the member with the strictly
largest gain current, keeping the first such member on ties (every pool
position before the chosen one has a strictly smaller gain); with a
non-empty pool some member always exceeds the `-inf` sentinel, so a
member is always selected. -/
theorem switch_environment_picks_first_best_gain (ad : AdaptiveEnvironment)
    (cur : Environment) (li : Individual) (gains : List Int)
    (hcur : ad.environments[ad.current]? = some cur)
    (hlast : cur.data.individuals.getLast? = some li)
    (hgains : switchTrialGains ad.go_for li.fitness ad.environments
      cur.data.individuals = .ok gains)
    (hne : ad.environments ≠ []) :
    ∃ (ad' : AdaptiveEnvironment) (b : Nat) (g : Int),
      ad.switch_environment = .ok ad' ∧
      ad'.current = b ∧
      gains[b]? = some g ∧
      (∀ x ∈ gains, x ≤ g) ∧
      (∀ j x, j < b → gains[j]? = some x → x < g) ∧
      gains.length = ad.environments.length := by
  have hlen := switchTrialGains_length ad.go_for li.fitness ad.environments
    cur.data.individuals gains hgains
  have hgne : gains ≠ [] := by
    intro hnil
    rw [hnil] at hlen
    exact hne (List.length_eq_zero.mp hlen.symm)
  obtain ⟨j, g, hj, heq, hall, hstrict⟩ := foldArgmax_none_spec gains hgne
  obtain ⟨es, sh, hloop⟩ := switchLoop_of_gains ad.go_for li.fitness
    ad.environments cur.data.individuals gains hgains (none, none) 0
  rw [heq] at hloop
  refine ⟨{ ad with
            environments := es.map (fun e =>
              { e with data := { e.data with individuals := sh } }),
            current := j }, j, g, ?_, rfl, hj, hall, hstrict, hlen⟩
  simp only [AdaptiveEnvironment.switch_environment, hcur, hlast, hloop]

/-- Witness for C7 at a concrete adaptive composite whose single pool
member gains fitness 1 over the baseline. -/
theorem switch_environment_picks_first_best_gain_witness :
    ∃ (ad' : AdaptiveEnvironment) (b : Nat) (g : Int),
      wAdapt.switch_environment = .ok ad' ∧
      ad'.current = b ∧
      ([1] : List Int)[b]? = some g ∧
      (∀ x ∈ ([1] : List Int), x ≤ g) ∧
      (∀ j x, j < b → ([1] : List Int)[j]? = some x → x < g) ∧
      ([1] : List Int).length = wAdapt.environments.length :=
  switch_environment_picks_first_best_gain wAdapt wUncompiledEnv ⟨0⟩ [1]
    rfl rfl rfl (by simp [wAdapt])
